import Mathlib

/-!
# Verification of the BleApp mesh routing core

A shallow embedding of the mesh protocol core of the BleApp repository:

* `src/services/MeshProtocolService.ts` — seen-message dedup cache,
  neighbor cache, packet receive/forward state machine, TTL computation,
  periodic sweeps;
* `src/services/BroadcastQueueService.ts` — bounded broadcast retry queue
  with exponential backoff;
* `src/constants/index.ts` — the `MESH_CONFIG` tunables;
* `src/types/index.ts`, `src/types/broadcast.ts` — the record types.

JavaScript `Map` objects are modelled as association lists that preserve
insertion order (`set` on an existing key updates the value in place,
`set` on a fresh key appends, `delete` removes the entry), exactly the
semantics of ECMAScript `Map`.  Timestamps (`Date.now()`) are `Nat`
milliseconds passed in explicitly; `ttl` is an `Int` since it is a plain
JS number that the code decrements.  Effects (delivery to the UI layer,
hand-off of a relayed packet to `BLEService.advertisePacket`) are
returned as explicit lists.
-/

namespace Mesh

/-! ## Constants (`src/constants/index.ts`, `MESH_CONFIG`) -/

def SEEN_MESSAGES_MAX : Nat := 1000
def SEEN_MESSAGE_TTL : Nat := 60000
def NEIGHBOR_CACHE_MAX : Nat := 100
def NEIGHBOR_EXPIRY : Nat := 30000
def BASE_TTL_CHAT : Int := 2
def BASE_TTL_BROADCAST : Int := 5
def MAX_TTL : Int := 10
def ADAPTIVE_TTL_THRESHOLD : Nat := 3
def BROADCAST_ADDRESS : String := "0xFFFF"

/-! ## Flags (`src/types/index.ts`, `enum MessageFlags`) -/

namespace MessageFlags

def CHAT : Nat := 0x01
def BROADCAST : Nat := 0x02
def EMERGENCY : Nat := 0x04

end MessageFlags

/-! ## Record types (`src/types/index.ts`) -/

structure MeshPacket where
  msg_id : String
  src_id : String
  dest_id : String
  flags : Nat
  ttl : Int
  payload : String
  timestamp : Nat
deriving Repr, DecidableEq

structure SeenMessageEntry where
  msg_id : String
  timestamp : Nat
  forwarded : Bool
deriving Repr, DecidableEq

structure NeighborEntry where
  src_id : String
  lastSeenTime : Nat
  rssi : Option Int
deriving Repr, DecidableEq

/-! ## JavaScript `Map` model

An insertion-ordered association list.  `set` on a present key replaces
the value at its current position; on an absent key it appends.  `get`
returns the value at the key, `delete` removes the entry, `size` is the
number of entries.  These are the ECMAScript `Map` operations restricted
to string keys, which is how `MeshProtocolService` uses them. -/

abbrev JsMap (α : Type) : Type := List (String × α)

namespace JsMap

def empty {α : Type} : JsMap α := ([] : List (String × α))

def get {α : Type} : JsMap α → String → Option α
  | ([] : List (String × α)), _ => none
  | (k', v) :: rest, k => if k' = k then some v else get rest k

def set {α : Type} : JsMap α → String → α → JsMap α
  | ([] : List (String × α)), k, v => [(k, v)]
  | (k', v') :: rest, k, v =>
      if k' = k then (k, v) :: rest else (k', v') :: set rest k v

def delete {α : Type} : JsMap α → String → JsMap α
  | ([] : List (String × α)), _ => ([] : List (String × α))
  | (k', v') :: rest, k => if k' = k then rest else (k', v') :: delete rest k

def size {α : Type} (m : JsMap α) : Nat := List.length m

def entries {α : Type} (m : JsMap α) : List (String × α) := m

end JsMap

/-! ## MeshProtocolService state -/

structure MeshState where
  seenMessages : JsMap SeenMessageEntry
  neighborCache : JsMap NeighborEntry
  deviceId : String
deriving Repr, DecidableEq

/-- `Array.from(map.entries()).sort((a,b) => a[1].lastSeenTime - b[1].lastSeenTime)[0]`:
the sort is stable, so element `[0]` is the first entry (in insertion
order) attaining the minimal `lastSeenTime`. -/
def oldestEntry : List (String × NeighborEntry) → Option (String × NeighborEntry)
  | [] => none
  | p :: rest =>
      match oldestEntry rest with
      | none => some p
      | some q => if q.2.lastSeenTime < p.2.lastSeenTime then some q else some p

/-- The eviction block of `updateNeighborCache` (lines 231–237): if the
cache exceeds `NEIGHBOR_CACHE_MAX`, delete the entry with the oldest
`lastSeenTime`. -/
def evictOldestIfOver (c1 : JsMap NeighborEntry) : JsMap NeighborEntry :=
  if NEIGHBOR_CACHE_MAX < c1.size then
    match oldestEntry c1.entries with
    | some p => c1.delete p.1
    | none => c1
  else c1

/-- `MeshProtocolService.updateNeighborCache` (lines 221–240): refresh
`lastSeenTime`, keep the previously recorded `rssi` (`existing?.rssi`),
then — only on this path — evict the oldest entry if the cache exceeds
`NEIGHBOR_CACHE_MAX`. -/
def updateNeighborCacheMap (now : Nat) (cache : JsMap NeighborEntry)
    (srcId : String) : JsMap NeighborEntry :=
  evictOldestIfOver (cache.set srcId
    (NeighborEntry.mk srcId now ((cache.get srcId).bind NeighborEntry.rssi)))

/-- `MeshProtocolService.updatePhysicalNeighbor` (lines 242–267): reject
self or empty id, otherwise insert-or-refresh with the reported `rssi`.
Note: unlike `updateNeighborCache`, this path performs no eviction. -/
def updatePhysicalNeighbor (now : Nat) (s : MeshState) (deviceId : String)
    (rssi : Option Int) : MeshState :=
  if deviceId = "" ∨ deviceId = s.deviceId then s
  else
    { s with
        neighborCache :=
          s.neighborCache.set deviceId (NeighborEntry.mk deviceId now rssi) }

/-- `MeshProtocolService.getActiveNeighbors` (lines 269–276). -/
def getActiveNeighbors (now : Nat) (s : MeshState) : List NeighborEntry :=
  (s.neighborCache.entries.map Prod.snd).filter
    (fun n => now - n.lastSeenTime < NEIGHBOR_EXPIRY)

/-- `MeshProtocolService.calculateTTL` (lines 278–295). -/
def calculateTTL (now : Nat) (s : MeshState) (flags : Nat) : Int :=
  if flags &&& MessageFlags.EMERGENCY ≠ 0 then
    BASE_TTL_BROADCAST
  else if flags &&& MessageFlags.BROADCAST ≠ 0 then
    min (BASE_TTL_BROADCAST - 1) MAX_TTL
  else
    if (getActiveNeighbors now s).length ≥ ADAPTIVE_TTL_THRESHOLD then 2 else 3

/-- `MeshProtocolService.forwardPacket` (lines 171–186): the relayed copy
handed to `BLEService.advertisePacket` after a jitter delay — same packet
with `ttl` decremented by exactly 1. -/
def forwardPacket (p : MeshPacket) : MeshPacket :=
  { p with ttl := p.ttl - 1 }

/-- Result of one `onPacketReceived` call: the new service state, the
packets delivered to the local application layer (`deliverToUI`), and the
relayed copies handed to the transport (`forwardPacket`). -/
structure RecvResult where
  state : MeshState
  delivered : List MeshPacket
  forwarded : List MeshPacket
deriving Repr, DecidableEq

/-- `MeshProtocolService.onPacketReceived` (lines 126–169). -/
def onPacketReceived (now : Nat) (s : MeshState) (p : MeshPacket) : RecvResult :=
  if p.src_id = s.deviceId then
    { state := s, delivered := [], forwarded := [] }
  else
    match s.seenMessages.get p.msg_id with
    | some entry =>
        if p.ttl > 0 ∧ entry.forwarded = false then
          { state :=
              { s with
                  seenMessages :=
                    s.seenMessages.set p.msg_id ({ entry with forwarded := true }) },
            delivered := [],
            forwarded := [forwardPacket p] }
        else
          { state := s, delivered := [], forwarded := [] }
    | none =>
        let s1 : MeshState :=
          { s with
              seenMessages :=
                s.seenMessages.set p.msg_id (SeenMessageEntry.mk p.msg_id now false) }
        let s2 : MeshState := { s1 with
          neighborCache := updateNeighborCacheMap now s1.neighborCache p.src_id }
        let isForMe := p.dest_id = s.deviceId
        let isBroadcast := p.dest_id = BROADCAST_ADDRESS
        let delivered := if isForMe ∨ isBroadcast then [p] else []
        match s2.seenMessages.get p.msg_id with
        | some newEntry =>
            if p.ttl > 0 ∧ newEntry.forwarded = false then
              { state :=
                  { s2 with
                      seenMessages :=
                        s2.seenMessages.set p.msg_id
                          ({ newEntry with forwarded := true }) },
                delivered := delivered,
                forwarded := [forwardPacket p] }
            else
              { state := s2, delivered := delivered, forwarded := [] }
        | none =>
            { state := s2, delivered := delivered, forwarded := [] }

/-- `MeshProtocolService.cleanSeenMessages` (lines 306–316): delete the
entries whose age exceeds `SEEN_MESSAGE_TTL`.  (No size-cap enforcement
occurs on this path.) -/
def cleanSeenMessages (now : Nat) (seen : JsMap SeenMessageEntry) :
    JsMap SeenMessageEntry :=
  List.filter (fun e => decide (¬ now - (Prod.snd e).timestamp > SEEN_MESSAGE_TTL)) seen

/-! ## BroadcastQueueService (`src/services/BroadcastQueueService.ts`) -/

structure QueuedBroadcast where
  id : String
  message : String
  isEmergency : Bool
  timestamp : Nat
  attempts : Nat
  maxAttempts : Nat
  nextAttemptAt : Nat
deriving Repr, DecidableEq

def MAX_QUEUE_SIZE : Nat := 100
def MAX_ATTEMPTS : Nat := 5

/-- The `QueuedBroadcast` literal built at the top of `queueBroadcast`
(lines 62–70). -/
def mkQueuedBroadcast (id message : String) (isEmergency : Bool) (now : Nat) :
    QueuedBroadcast :=
  { id := id, message := message, isEmergency := isEmergency, timestamp := now,
    attempts := 0,
    maxAttempts := if isEmergency then MAX_ATTEMPTS * 2 else MAX_ATTEMPTS,
    nextAttemptAt := now }

/-- `this.queue.findIndex(b => !b.isEmergency)` (line 77): index of the
first non-emergency entry, `none` when every entry is emergency (JS
returns `-1` there). -/
def findIndexNonEmergency : List QueuedBroadcast → Option Nat
  | [] => none
  | x :: rest =>
      if x.isEmergency = false then some 0
      else (findIndexNonEmergency rest).map Nat.succ

/-- `BroadcastQueueService.queueBroadcast` (lines 61–92), acting on the
queue: push, then if over `MAX_QUEUE_SIZE` splice out the first
non-emergency entry (`findIndex(b => !b.isEmergency)` + `splice(i, 1)`),
or `shift()` the head when every entry is emergency.  The queue list is
in insertion (oldest-first) order. -/
def queueBroadcast (q : List QueuedBroadcast) (b : QueuedBroadcast) :
    List QueuedBroadcast :=
  let q1 := q ++ [b]
  if MAX_QUEUE_SIZE < q1.length then
    match findIndexNonEmergency q1 with
    | some i => q1.eraseIdx i
    | none => q1.drop 1
  else q1

/-- The comparator of `processQueue`'s `sortedQueue`
(`[...this.queue].sort(...)`, lines 121–125): emergency entries first,
then by ascending `timestamp`; JS `Array.prototype.sort` is stable. -/
def broadcastBefore (a b : QueuedBroadcast) : Prop :=
  if a.isEmergency = b.isEmergency then a.timestamp ≤ b.timestamp
  else a.isEmergency = true

instance : DecidableRel broadcastBefore := by
  intro a b
  unfold broadcastBefore
  infer_instance

def sortBroadcasts (q : List QueuedBroadcast) : List QueuedBroadcast :=
  List.insertionSort broadcastBefore q

/-- The `catch` branch of `processQueue` (lines 138–156): increment
`attempts`, set `nextAttemptAt := now + min(baseDelay · 2^attempts, 60000)`
with `baseDelay = 2000` for emergency and `5000` otherwise. -/
def failStep (now : Nat) (b : QueuedBroadcast) : QueuedBroadcast :=
  let attempts := b.attempts + 1
  let baseDelay : Nat := if b.isEmergency then 2000 else 5000
  let backoff := min (baseDelay * 2 ^ attempts) 60000
  { b with attempts := attempts, nextAttemptAt := now + backoff }

/-- Net effect of one `processQueue` iteration on one queued broadcast:
on success it is added to `toRemove` (sent, leaves the queue); on failure
it is mutated by `failStep` and added to `toRemove` exactly when the
incremented `attempts` reaches `maxAttempts` (lines 127–157).
`sendOk b` models whether `MeshProtocolService.sendBroadcastMessage`
returns normally for `b`. -/
def processOne (now : Nat) (sendOk : QueuedBroadcast → Bool)
    (b : QueuedBroadcast) : Option QueuedBroadcast :=
  if sendOk b then none
  else
    let b' := failStep now b
    if b'.attempts ≥ b'.maxAttempts then none else some b'

/-- `BroadcastQueueService.processQueue` (lines 97–171) for one run, with
`isProcessing = false` on entry.  Returns the queue after the run and the
list of broadcasts passed to `sendBroadcastMessage` during the run, in
attempt order.  Early returns: empty queue, zero active neighbors, or no
entry with `nextAttemptAt <= now`.  Otherwise the loop runs over
`sortedQueue` — a sorted copy of the *whole* queue, not of the `eligible`
filtrate — attempting every entry once; each queue object is mutated at
most once and the final `filter` drops the `toRemove` ids (ids are fresh
UUIDs, hence distinct), so the surviving queue is the element-wise
`processOne` image of the original queue. -/
def processQueue (now : Nat) (activeNeighborCount : Nat)
    (sendOk : QueuedBroadcast → Bool) (q : List QueuedBroadcast) :
    List QueuedBroadcast × List QueuedBroadcast :=
  if q.length = 0 then (q, [])
  else if activeNeighborCount = 0 then (q, [])
  else if (q.filter (fun b => decide (b.nextAttemptAt ≤ now))).length = 0 then (q, [])
  else (q.filterMap (processOne now sendOk), sortBroadcasts q)

/-- A run of consecutive failed attempts for one queued broadcast: each
element of `times` is the clock value at one failing `processQueue` run;
`none` means the message was dropped (removed from the queue) during the
run of failures. -/
def failTrajectory : List Nat → QueuedBroadcast → Option QueuedBroadcast
  | [], b => some b
  | t :: ts, b =>
      match processOne t (fun _ => false) b with
      | none => none
      | some b' => failTrajectory ts b'

/-! ## Trace semantics for `onPacketReceived`

A trace is a list of (arrival time, packet) pairs handed to
`onPacketReceived` in order; `recvTrace` returns the final state and the
concatenation of all relayed copies handed to the transport. -/

def recvTrace (s : MeshState) : List (Nat × MeshPacket) → MeshState × List MeshPacket
  | [] => (s, [])
  | (t, p) :: rest =>
      let r := onPacketReceived t s p
      let res := recvTrace r.state rest
      (res.1, r.forwarded ++ res.2)

/-- The `forwarded` flag of the seen-cache entry for message id `m`
(`false` when there is no entry). -/
def forwardedFlag (s : MeshState) (m : String) : Bool :=
  match JsMap.get s.seenMessages m with
  | some e => e.forwarded
  | none => false

/-- Number of relayed copies of message id `m` in a transmission list. -/
def countForward (l : List MeshPacket) (m : String) : Nat :=
  (l.filter (fun fp => decide (fp.msg_id = m))).length

/-! ## Association-list (JS `Map`) lemmas -/

namespace JsMap

theorem get_set_self {α : Type} (m : JsMap α) (k : String) (v : α) :
    (m.set k v).get k = some v := by
  induction m with
  | nil => simp [set, get]
  | cons p rest ih =>
      obtain ⟨k', v'⟩ := p
      by_cases h : k' = k
      · simp [set, get, h]
      · simp [set, get, h, ih]

theorem get_set_ne {α : Type} (m : JsMap α) (k k' : String) (v : α)
    (h : k ≠ k') : (m.set k v).get k' = m.get k' := by
  induction m with
  | nil => simp [set, get, h]
  | cons p rest ih =>
      obtain ⟨a, b⟩ := p
      by_cases ha : a = k
      · subst ha
        simp [set, get, h]
      · by_cases hb : a = k'
        · simp [set, get, ha, hb, Ne.symm h]
        · simp [set, get, ha, hb, ih]

theorem set_set {α : Type} (m : JsMap α) (k : String) (v w : α) :
    (m.set k v).set k w = m.set k w := by
  induction m with
  | nil => simp [set]
  | cons p rest ih =>
      obtain ⟨a, b⟩ := p
      by_cases ha : a = k
      · simp [set, ha]
      · simp [set, ha, ih]

theorem get_delete_ne {α : Type} (m : JsMap α) (dk k : String)
    (h : dk ≠ k) : (m.delete dk).get k = m.get k := by
  induction m with
  | nil => simp [delete, get]
  | cons p rest ih =>
      obtain ⟨a, b⟩ := p
      by_cases ha : a = dk
      · subst ha
        simp [delete, get, h]
      · by_cases hk : a = k
        · simp [delete, get, ha, hk, Ne.symm h]
        · simp [delete, get, ha, hk, ih]

/-- Any key of `m.set k v` is `k` or a key of `m`. -/
theorem mem_keys_set {α : Type} (m : JsMap α) (k x : String) (v : α)
    (hx : x ∈ (m.set k v).map Prod.fst) : x = k ∨ x ∈ m.map Prod.fst := by
  induction m with
  | nil => simpa [set] using hx
  | cons p rest ih =>
      obtain ⟨a, b⟩ := p
      by_cases ha : a = k
      · subst ha
        simpa [set] using hx
      · simp only [set, ha, if_false, List.map_cons, List.mem_cons] at hx
        rcases hx with hx | hx
        · right; simp [hx]
        · rcases ih hx with h1 | h1
          · exact Or.inl h1
          · right; simp [h1]

theorem nodup_keys_set {α : Type} (m : JsMap α) (k : String) (v : α)
    (h : (m.map Prod.fst).Nodup) : ((m.set k v).map Prod.fst).Nodup := by
  induction m with
  | nil => simp [set]
  | cons p rest ih =>
      obtain ⟨a, b⟩ := p
      simp only [List.map_cons, List.nodup_cons] at h
      by_cases ha : a = k
      · subst ha
        simpa [set] using h
      · simp only [set, if_neg ha, List.map_cons, List.nodup_cons]
        refine ⟨?_, ih h.2⟩
        intro hmem
        rcases mem_keys_set rest k a v (by simpa using hmem) with h1 | h1
        · exact ha h1
        · exact h.1 (by simpa using h1)

theorem get_none_of_not_mem_keys {α : Type} (m : JsMap α) (k : String)
    (h : k ∉ m.map Prod.fst) : m.get k = none := by
  induction m with
  | nil => simp [get]
  | cons p rest ih =>
      obtain ⟨a, b⟩ := p
      simp only [List.map_cons, List.mem_cons] at h
      push_neg at h
      have hne : ¬ a = k := fun hh => h.1 hh.symm
      simp [get, hne, ih h.2]

theorem get_delete_self {α : Type} (m : JsMap α) (k : String)
    (h : (m.map Prod.fst).Nodup) : (m.delete k).get k = none := by
  induction m with
  | nil => simp [delete, get]
  | cons p rest ih =>
      obtain ⟨a, b⟩ := p
      simp only [List.map_cons, List.nodup_cons] at h
      by_cases ha : a = k
      · subst ha
        simpa [delete] using get_none_of_not_mem_keys rest a h.1
      · simp [delete, get, ha, ih h.2]

end JsMap

/-- A value only survives `evictOldestIfOver` unchanged: any binding in
the output was already present in the input (eviction only removes). -/
theorem get_evictOldestIfOver (c1 : JsMap NeighborEntry) (k : String)
    (h : (c1.map Prod.fst).Nodup) (e : NeighborEntry)
    (hg : JsMap.get (evictOldestIfOver c1) k = some e) :
    JsMap.get c1 k = some e := by
  unfold evictOldestIfOver at hg
  split at hg
  · split at hg
    · rename_i p hold
      by_cases hpk : p.1 = k
      · rw [hpk, JsMap.get_delete_self c1 k h] at hg
        exact absurd hg (by simp)
      · rwa [JsMap.get_delete_ne c1 p.1 k hpk] at hg
    · exact hg
  · exact hg

/-! # Claim theorems -/

/-- Concrete fixtures used by the witness theorems. -/
def demoState : MeshState :=
  { seenMessages := JsMap.empty, neighborCache := JsMap.empty, deviceId := "me" }

def demoSelfPacket : MeshPacket :=
  { msg_id := "m1", src_id := "me", dest_id := "0xFFFF", flags := 2, ttl := 4,
    payload := "hi", timestamp := 0 }

def demoPeerPacket : MeshPacket :=
  { msg_id := "m2", src_id := "peer", dest_id := "me", flags := 1, ttl := 0,
    payload := "yo", timestamp := 0 }

/-- **C9** — Self-echo suppression: a packet whose `src_id` equals this
node's `deviceId` is discarded by `onPacketReceived` before any state
change: the seen cache and neighbor cache are untouched, nothing is
delivered locally, and nothing is forwarded. -/
theorem self_echo_suppression (now : Nat) (s : MeshState) (p : MeshPacket)
    (h : p.src_id = s.deviceId) :
    onPacketReceived now s p = { state := s, delivered := [], forwarded := [] } := by
  simp [onPacketReceived, h]

theorem self_echo_suppression_witness :
    onPacketReceived 0 demoState demoSelfPacket =
      { state := demoState, delivered := [], forwarded := [] } :=
  self_echo_suppression 0 demoState demoSelfPacket rfl

/-- **C2** — TTL handling in `onPacketReceived`: every relayed copy
carries `ttl` exactly one less than the received packet's `ttl`; a packet
received with `ttl = 0` is never forwarded; and a fresh (non-self,
unseen) packet with `ttl = 0` addressed to this device or to the
broadcast address is still delivered to the local application layer. -/
theorem ttl_decrement_on_forward (now : Nat) (s : MeshState) (p : MeshPacket) :
    (∀ fp ∈ (onPacketReceived now s p).forwarded,
        fp.ttl = p.ttl - 1 ∧ fp.msg_id = p.msg_id) ∧
    (p.ttl = 0 → (onPacketReceived now s p).forwarded = []) ∧
    (p.ttl = 0 → p.src_id ≠ s.deviceId →
      JsMap.get s.seenMessages p.msg_id = none →
      (p.dest_id = s.deviceId ∨ p.dest_id = BROADCAST_ADDRESS) →
      (onPacketReceived now s p).delivered = [p]) := by
  by_cases hsrc : p.src_id = s.deviceId
  · simp [onPacketReceived, hsrc]
  · rcases hget : JsMap.get s.seenMessages p.msg_id with _ | entry
    · by_cases httl : p.ttl > 0
      · refine ⟨?_, ?_, ?_⟩
        · intro fp hfp
          simp [onPacketReceived, hsrc, hget, JsMap.get_set_self, httl,
            forwardPacket] at hfp
          simp [hfp, forwardPacket]
        · intro h0
          omega
        · intro h0
          omega
      · have h0 : ¬ (p.ttl > 0 ∧ false = false) := by
          intro hc
          exact httl hc.1
        refine ⟨?_, ?_, ?_⟩
        · intro fp hfp
          simp [onPacketReceived, hsrc, hget, JsMap.get_set_self, httl] at hfp
        · intro _
          simp [onPacketReceived, hsrc, hget, JsMap.get_set_self, httl]
        · intro _ _ _ hdest
          rcases hdest with hd | hd <;>
            simp [onPacketReceived, hsrc, hget, JsMap.get_set_self, httl, hd]
    · by_cases hfwd : p.ttl > 0 ∧ entry.forwarded = false
      · refine ⟨?_, ?_, ?_⟩
        · intro fp hfp
          simp [onPacketReceived, hsrc, hget, hfwd] at hfp
          simp [hfp, forwardPacket]
        · intro h0
          have := hfwd.1
          omega
        · intro _ _ habs _
          exact Option.noConfusion habs
      · refine ⟨?_, ?_, ?_⟩
        · intro fp hfp
          simp [onPacketReceived, hsrc, hget, hfwd] at hfp
        · intro _
          simp [onPacketReceived, hsrc, hget, hfwd]
        · intro _ _ habs _
          exact Option.noConfusion habs

theorem ttl_decrement_on_forward_witness :
    (onPacketReceived 0 demoState demoPeerPacket).forwarded = [] ∧
    (onPacketReceived 0 demoState demoPeerPacket).delivered = [demoPeerPacket] := by
  refine ⟨(ttl_decrement_on_forward 0 demoState demoPeerPacket).2.1 rfl, ?_⟩
  exact (ttl_decrement_on_forward 0 demoState demoPeerPacket).2.2 rfl
    (by decide) rfl (Or.inl rfl)

/-- **C6** — `calculateTTL`: the `EMERGENCY` flag yields
`BASE_TTL_BROADCAST = 5`; a non-emergency `BROADCAST` yields
`min (BASE_TTL_BROADCAST - 1) MAX_TTL = 4`; a plain point-to-point chat
message (`flags = CHAT`) yields `2` when the active-neighbor count is at
least `ADAPTIVE_TTL_THRESHOLD = 3`, else `3`. -/
theorem calculateTTL_spec (now : Nat) (s : MeshState) (flags : Nat) :
    (flags &&& MessageFlags.EMERGENCY ≠ 0 →
      calculateTTL now s flags = BASE_TTL_BROADCAST ∧ calculateTTL now s flags = 5) ∧
    (flags &&& MessageFlags.EMERGENCY = 0 → flags &&& MessageFlags.BROADCAST ≠ 0 →
      calculateTTL now s flags = min (BASE_TTL_BROADCAST - 1) MAX_TTL ∧
      calculateTTL now s flags = 4) ∧
    (flags = MessageFlags.CHAT →
      calculateTTL now s flags =
        if ADAPTIVE_TTL_THRESHOLD ≤ (getActiveNeighbors now s).length then 2 else 3) := by
  refine ⟨?_, ?_, ?_⟩
  · intro he
    constructor
    · simp [calculateTTL, he]
    · simp [calculateTTL, he, BASE_TTL_BROADCAST]
  · intro he hb
    constructor
    · simp [calculateTTL, he, hb]
    · simp [calculateTTL, he, hb, BASE_TTL_BROADCAST, MAX_TTL]
  · intro hc
    subst hc
    have h1 : MessageFlags.CHAT &&& MessageFlags.EMERGENCY = 0 := by decide
    have h2 : MessageFlags.CHAT &&& MessageFlags.BROADCAST = 0 := by decide
    simp [calculateTTL, h1, h2, ADAPTIVE_TTL_THRESHOLD, ge_iff_le]

theorem calculateTTL_spec_witness :
    calculateTTL 0 demoState 4 = 5 ∧ calculateTTL 0 demoState 2 = 4 ∧
    calculateTTL 0 demoState 1 = 3 := by
  refine ⟨((calculateTTL_spec 0 demoState 4).1 (by decide)).2,
          ((calculateTTL_spec 0 demoState 2).2.1 (by decide) (by decide)).2, ?_⟩
  have h := (calculateTTL_spec 0 demoState 1).2.2 rfl
  rw [h]
  decide

/-- **C10** — A packet-driven neighbor refresh (`updateNeighborCache`)
rewrites `lastSeenTime` to the current time but preserves the stored
`rssi` (`existing?.rssi` — `none` if the peer was never physically
discovered), and every other binding it leaves in the table is exactly
the binding that was already there.  The key-uniqueness hypothesis is the
JS `Map` invariant. -/
theorem neighbor_refresh_preserves_rssi (now : Nat) (cache : JsMap NeighborEntry)
    (srcId : String) (hnodup : (cache.map Prod.fst).Nodup) :
    (∀ e, JsMap.get (updateNeighborCacheMap now cache srcId) srcId = some e →
        e.rssi = (JsMap.get cache srcId).bind NeighborEntry.rssi ∧
        e.lastSeenTime = now ∧ e.src_id = srcId) ∧
    (∀ k e, k ≠ srcId →
        JsMap.get (updateNeighborCacheMap now cache srcId) k = some e →
        JsMap.get cache k = some e) := by
  have hnodup1 : ((cache.set srcId
      (NeighborEntry.mk srcId now ((JsMap.get cache srcId).bind NeighborEntry.rssi))).map
        Prod.fst).Nodup :=
    JsMap.nodup_keys_set cache srcId _ hnodup
  constructor
  · intro e hg
    have h1 := get_evictOldestIfOver _ srcId hnodup1 e hg
    rw [JsMap.get_set_self] at h1
    have h2 : e = NeighborEntry.mk srcId now
        ((JsMap.get cache srcId).bind NeighborEntry.rssi) := by
      injection h1.symm
    rw [h2]
    exact ⟨rfl, rfl, rfl⟩
  · intro k e hk hg
    have h1 := get_evictOldestIfOver _ k hnodup1 e hg
    rwa [JsMap.get_set_ne cache srcId k _ (fun hh => hk hh.symm)] at h1

theorem countForward_append (a b : List MeshPacket) (m : String) :
    countForward (a ++ b) m = countForward a m + countForward b m := by
  simp [countForward, List.filter_append]

/-- One `onPacketReceived` call forwards a given message id at most once,
forwards nothing already flagged as forwarded, flags whatever it forwards,
and never clears an already-set `forwarded` flag. -/
theorem forward_step_aux (now : Nat) (s : MeshState) (p : MeshPacket) (m : String) :
    (forwardedFlag s m = true →
      forwardedFlag (onPacketReceived now s p).state m = true ∧
      countForward (onPacketReceived now s p).forwarded m = 0) ∧
    countForward (onPacketReceived now s p).forwarded m ≤ 1 ∧
    (countForward (onPacketReceived now s p).forwarded m = 1 →
      forwardedFlag (onPacketReceived now s p).state m = true) := by
  by_cases hsrc : p.src_id = s.deviceId
  · simp [onPacketReceived, hsrc, countForward]
  · rcases hget : JsMap.get s.seenMessages p.msg_id with _ | entry
    · by_cases hid : p.msg_id = m
      · subst hid
        have hflagfalse : forwardedFlag s p.msg_id = false := by
          simp [forwardedFlag, hget]
        by_cases httl : p.ttl > 0
        · refine ⟨?_, ?_, ?_⟩
          · intro hflag
            rw [hflagfalse] at hflag
            exact Bool.noConfusion hflag
          · simp [onPacketReceived, hsrc, hget, JsMap.get_set_self, httl,
              countForward, forwardPacket]
          · intro _
            simp [onPacketReceived, hsrc, hget, JsMap.get_set_self, httl,
              forwardedFlag]
        · refine ⟨?_, ?_, ?_⟩
          · intro hflag
            rw [hflagfalse] at hflag
            exact Bool.noConfusion hflag
          · simp [onPacketReceived, hsrc, hget, JsMap.get_set_self, httl,
              countForward]
          · intro hc
            simp [onPacketReceived, hsrc, hget, JsMap.get_set_self, httl,
              countForward] at hc
      · have hpres : ∀ (a : JsMap SeenMessageEntry) (e0 : SeenMessageEntry),
            JsMap.get (JsMap.set a p.msg_id e0) m = JsMap.get a m :=
          fun a e0 => JsMap.get_set_ne a p.msg_id m e0 hid
        by_cases httl : p.ttl > 0
        · refine ⟨?_, ?_, ?_⟩
          · intro hflag
            constructor
            · simp only [forwardedFlag] at hflag ⊢
              simpa [onPacketReceived, hsrc, hget, JsMap.get_set_self, httl,
                hpres] using hflag
            · simp [onPacketReceived, hsrc, hget, JsMap.get_set_self, httl,
                countForward, forwardPacket, hid]
          · simp [onPacketReceived, hsrc, hget, JsMap.get_set_self, httl,
              countForward, forwardPacket, hid]
          · intro hc
            simp [onPacketReceived, hsrc, hget, JsMap.get_set_self, httl,
              countForward, forwardPacket, hid] at hc
        · refine ⟨?_, ?_, ?_⟩
          · intro hflag
            constructor
            · simp only [forwardedFlag] at hflag ⊢
              simpa [onPacketReceived, hsrc, hget, JsMap.get_set_self, httl,
                hpres] using hflag
            · simp [onPacketReceived, hsrc, hget, JsMap.get_set_self, httl,
                countForward]
          · simp [onPacketReceived, hsrc, hget, JsMap.get_set_self, httl,
              countForward]
          · intro hc
            simp [onPacketReceived, hsrc, hget, JsMap.get_set_self, httl,
              countForward] at hc
    · by_cases hfwd : p.ttl > 0 ∧ entry.forwarded = false
      · by_cases hid : p.msg_id = m
        · subst hid
          have hflagfalse : forwardedFlag s p.msg_id = false := by
            simp [forwardedFlag, hget, hfwd.2]
          refine ⟨?_, ?_, ?_⟩
          · intro hflag
            rw [hflagfalse] at hflag
            exact Bool.noConfusion hflag
          · simp [onPacketReceived, hsrc, hget, hfwd, countForward, forwardPacket]
          · intro _
            simp [onPacketReceived, hsrc, hget, hfwd, forwardedFlag,
              JsMap.get_set_self]
        · have hpres : ∀ (a : JsMap SeenMessageEntry) (e0 : SeenMessageEntry),
              JsMap.get (JsMap.set a p.msg_id e0) m = JsMap.get a m :=
            fun a e0 => JsMap.get_set_ne a p.msg_id m e0 hid
          refine ⟨?_, ?_, ?_⟩
          · intro hflag
            constructor
            · simp only [forwardedFlag] at hflag ⊢
              simpa [onPacketReceived, hsrc, hget, hfwd, hpres] using hflag
            · simp [onPacketReceived, hsrc, hget, hfwd, countForward,
                forwardPacket, hid]
          · simp [onPacketReceived, hsrc, hget, hfwd, countForward,
              forwardPacket, hid]
          · intro hc
            simp [onPacketReceived, hsrc, hget, hfwd, countForward,
              forwardPacket, hid] at hc
      · refine ⟨?_, ?_, ?_⟩
        · intro hflag
          refine ⟨?_, ?_⟩
          · simpa [onPacketReceived, hsrc, hget, hfwd] using hflag
          · simp [onPacketReceived, hsrc, hget, hfwd, countForward]
        · simp [onPacketReceived, hsrc, hget, hfwd, countForward]
        · intro hc
          simp [onPacketReceived, hsrc, hget, hfwd, countForward] at hc

/-- **C1** — No double-forward: across any sequence of
`onPacketReceived` calls (any packets, any order, any ttl values), a
given message id is handed to `forwardPacket` at most once; if its
seen-cache `forwarded` flag is already set, it is never handed to
`forwardPacket` again, and the flag is never reset to `false` (this
holds from every intermediate state, hence at every point of every
execution made of receive events). -/
theorem no_double_forward (m : String) :
    ∀ (trace : List (Nat × MeshPacket)) (s : MeshState),
      countForward (recvTrace s trace).2 m ≤ 1 ∧
      (forwardedFlag s m = true →
        countForward (recvTrace s trace).2 m = 0 ∧
        forwardedFlag (recvTrace s trace).1 m = true) := by
  intro trace
  induction trace with
  | nil =>
      intro s
      refine ⟨by simp [recvTrace, countForward], fun h => ⟨by simp [recvTrace, countForward], by simpa [recvTrace] using h⟩⟩
  | cons tp rest ih =>
      intro s
      obtain ⟨t, p⟩ := tp
      have hstep := forward_step_aux t s p m
      have hrest := ih (onPacketReceived t s p).state
      have hsplit : recvTrace s ((t, p) :: rest) =
          ((recvTrace (onPacketReceived t s p).state rest).1,
            (onPacketReceived t s p).forwarded ++
              (recvTrace (onPacketReceived t s p).state rest).2) := rfl
      rw [hsplit, countForward_append]
      constructor
      · rcases Nat.lt_or_ge (countForward (onPacketReceived t s p).forwarded m) 1 with h0 | h1
        · have hz : countForward (onPacketReceived t s p).forwarded m = 0 :=
            Nat.lt_one_iff.mp h0
          rw [hz]
          simpa using hrest.1
        · have hc1 : countForward (onPacketReceived t s p).forwarded m = 1 :=
            le_antisymm hstep.2.1 h1
          have hflag := hstep.2.2 hc1
          have hr0 := (hrest.2 hflag).1
          rw [hc1, hr0]
      · intro hflag
        have h1 := hstep.1 hflag
        have h2 := hrest.2 h1.1
        exact ⟨by rw [h1.2, h2.1], h2.2⟩

def demoSeenState : MeshState :=
  { seenMessages := [("m2", SeenMessageEntry.mk "m2" 0 true)],
    neighborCache := JsMap.empty, deviceId := "me" }

def demoDupPacket : MeshPacket :=
  { msg_id := "m2", src_id := "peer", dest_id := "me", flags := 1, ttl := 3,
    payload := "yo", timestamp := 0 }

theorem no_double_forward_witness :
    countForward (recvTrace demoSeenState
      [(1, demoDupPacket), (2, demoDupPacket)]).2 "m2" = 0 ∧
    forwardedFlag (recvTrace demoSeenState
      [(1, demoDupPacket), (2, demoDupPacket)]).1 "m2" = true :=
  (no_double_forward "m2" [(1, demoDupPacket), (2, demoDupPacket)]
    demoSeenState).2 (by decide)

theorem neighbor_refresh_preserves_rssi_witness :
    (NeighborEntry.mk "peer" 7 (some (-40))).rssi =
      (JsMap.get [("peer", NeighborEntry.mk "peer" 0 (some (-40)))] "peer").bind
        NeighborEntry.rssi ∧
    (NeighborEntry.mk "peer" 7 (some (-40))).lastSeenTime = 7 ∧
    (NeighborEntry.mk "peer" 7 (some (-40))).src_id = "peer" :=
  (neighbor_refresh_preserves_rssi 7
      [("peer", NeighborEntry.mk "peer" 0 (some (-40)))] "peer" (by simp)).1
    (NeighborEntry.mk "peer" 7 (some (-40))) (by decide)

/-! ## Retry-queue lemmas -/

theorem failStep_attempts (now : Nat) (b : QueuedBroadcast) :
    (failStep now b).attempts = b.attempts + 1 := rfl

theorem failStep_maxAttempts (now : Nat) (b : QueuedBroadcast) :
    (failStep now b).maxAttempts = b.maxAttempts := rfl

theorem failStep_isEmergency (now : Nat) (b : QueuedBroadcast) :
    (failStep now b).isEmergency = b.isEmergency := rfl

theorem failStep_id (now : Nat) (b : QueuedBroadcast) :
    (failStep now b).id = b.id := rfl

theorem failStep_nextAttemptAt (now : Nat) (b : QueuedBroadcast) :
    (failStep now b).nextAttemptAt =
      now + min ((if b.isEmergency then 2000 else 5000) * 2 ^ (b.attempts + 1)) 60000 :=
  rfl

/-- Surviving a run of consecutive failures is exactly not yet having
reached `maxAttempts`. -/
theorem failTrajectory_isSome (times : List Nat) (b : QueuedBroadcast)
    (halive : b.attempts < b.maxAttempts) :
    (failTrajectory times b).isSome = true ↔
      b.attempts + times.length < b.maxAttempts := by
  induction times generalizing b with
  | nil =>
      simpa [failTrajectory] using halive
  | cons t ts ih =>
      by_cases hdrop : (failStep t b).attempts ≥ (failStep t b).maxAttempts
      · rw [failStep_attempts, failStep_maxAttempts] at hdrop
        simp only [failTrajectory, processOne, if_neg (by simp : ¬ (fun _ => false) b = true)]
        rw [if_pos (by rw [failStep_attempts, failStep_maxAttempts]; omega)]
        simp only [Option.isSome_none, List.length_cons]
        constructor
        · intro hfalse
          exact Bool.noConfusion hfalse
        · intro hlt
          omega
      · rw [failStep_attempts, failStep_maxAttempts] at hdrop
        simp only [failTrajectory, processOne, if_neg (by simp : ¬ (fun _ => false) b = true)]
        rw [if_neg (by rw [failStep_attempts, failStep_maxAttempts]; omega)]
        rw [ih (failStep t b) (by rw [failStep_attempts, failStep_maxAttempts]; omega)]
        rw [failStep_attempts, failStep_maxAttempts]
        simp only [List.length_cons]
        omega

/-- **C7** — Retry backoff for a failing queued broadcast: the failure
handler sets `nextAttemptAt = now + min(baseDelay · 2^attempts, 60000)`
(with `baseDelay = 2000` for emergency, `5000` otherwise, and `attempts`
already incremented); across any two consecutive failing runs (clock
strictly advancing between runs, `b` being the message state at any
point of its failure chain, so every consecutive failure pair is
covered) `nextAttemptAt` strictly increases; a fresh message survives a
run of `k` consecutive failures exactly when `k < maxAttempts`, so it is
dropped exactly at the failure that makes `attempts = maxAttempts`; and
removal is terminal — `processQueue` never adds a message id that was
not already queued. -/
theorem retry_backoff_spec (b : QueuedBroadcast) (now1 now2 : Nat)
    (h12 : now1 < now2) :
    ((failStep now1 b).nextAttemptAt =
      now1 + min ((if b.isEmergency then 2000 else 5000) * 2 ^ (b.attempts + 1)) 60000) ∧
    ((failStep now1 b).nextAttemptAt < (failStep now2 (failStep now1 b)).nextAttemptAt) ∧
    (b.attempts = 0 → 1 ≤ b.maxAttempts →
      ∀ times : List Nat,
        (failTrajectory times b).isSome = true ↔ times.length < b.maxAttempts) ∧
    (∀ (now an : Nat) (sendOk : QueuedBroadcast → Bool)
        (q : List QueuedBroadcast) (x : QueuedBroadcast),
      x ∈ (processQueue now an sendOk q).1 → x.id ∈ q.map QueuedBroadcast.id) := by
  refine ⟨failStep_nextAttemptAt now1 b, ?_, ?_, ?_⟩
  · rw [failStep_nextAttemptAt, failStep_nextAttemptAt, failStep_attempts,
      failStep_isEmergency]
    have hmono :
        min ((if b.isEmergency then 2000 else 5000) * 2 ^ (b.attempts + 1)) 60000 ≤
          min ((if b.isEmergency then 2000 else 5000) * 2 ^ (b.attempts + 1 + 1)) 60000 := by
      refine min_le_min ?_ (le_refl _)
      exact Nat.mul_le_mul_left _ (Nat.pow_le_pow_right (by norm_num) (by omega))
    omega
  · intro h0 hmax times
    rw [failTrajectory_isSome times b (by omega), h0]
    omega
  · intro now an sendOk q x hx
    unfold processQueue at hx
    by_cases h1 : q.length = 0
    · rw [if_pos h1] at hx
      exact List.mem_map_of_mem QueuedBroadcast.id hx
    · rw [if_neg h1] at hx
      by_cases h2 : an = 0
      · rw [if_pos h2] at hx
        exact List.mem_map_of_mem QueuedBroadcast.id hx
      · rw [if_neg h2] at hx
        by_cases h3 : (q.filter (fun c => decide (c.nextAttemptAt ≤ now))).length = 0
        · rw [if_pos h3] at hx
          exact List.mem_map_of_mem QueuedBroadcast.id hx
        · rw [if_neg h3] at hx
          simp only at hx
          rcases List.mem_filterMap.mp hx with ⟨a, ha, hpa⟩
          unfold processOne at hpa
          by_cases hok : sendOk a = true
          · rw [if_pos hok] at hpa
            exact Option.noConfusion hpa
          · rw [if_neg hok] at hpa
            simp only at hpa
            by_cases hdrop : (failStep now a).attempts ≥ (failStep now a).maxAttempts
            · rw [if_pos hdrop] at hpa
              exact Option.noConfusion hpa
            · rw [if_neg hdrop] at hpa
              have hxa : x = failStep now a := by
                injection hpa.symm
              rw [hxa, failStep_id]
              exact List.mem_map_of_mem QueuedBroadcast.id ha

def demoFresh : QueuedBroadcast := mkQueuedBroadcast "q1" "hello" false 0

theorem retry_backoff_spec_witness :
    (failStep 100 demoFresh).nextAttemptAt =
      100 + min ((if demoFresh.isEmergency then 2000 else 5000) *
        2 ^ (demoFresh.attempts + 1)) 60000 ∧
    (failStep 100 demoFresh).nextAttemptAt <
      (failStep 200 (failStep 100 demoFresh)).nextAttemptAt ∧
    (failStep 100 (failStep 50 demoFresh)).nextAttemptAt <
      (failStep 200 (failStep 100 (failStep 50 demoFresh))).nextAttemptAt ∧
    ((failTrajectory [100, 200, 300, 400, 500] demoFresh).isSome = true ↔
      (5 : Nat) < demoFresh.maxAttempts) := by
  have h := retry_backoff_spec demoFresh 100 200 (by decide)
  have h' := retry_backoff_spec (failStep 50 demoFresh) 100 200 (by decide)
  exact ⟨h.1, h.2.1, h'.2.1,
    h.2.2.1 (by decide) (by decide) [100, 200, 300, 400, 500]⟩

/-! ## Queue-cap lemmas -/

theorem findIndexNonEmergency_none (l : List QueuedBroadcast)
    (h : findIndexNonEmergency l = none) : ∀ x ∈ l, x.isEmergency = true := by
  induction l with
  | nil => intro x hx; exact absurd hx (List.not_mem_nil x)
  | cons a rest ih =>
      intro x hx
      unfold findIndexNonEmergency at h
      by_cases ha : a.isEmergency = false
      · rw [if_pos ha] at h
        exact Option.noConfusion h
      · rw [if_neg ha] at h
        rcases List.mem_cons.mp hx with hx | hx
        · rw [hx]
          exact Bool.not_eq_false a.isEmergency ▸ Bool.of_not_eq_false ha
        · exact ih (by
            rcases hrec : findIndexNonEmergency rest with _ | i
            · rfl
            · rw [hrec] at h
              exact Option.noConfusion h) x hx

theorem findIndexNonEmergency_some (l : List QueuedBroadcast) (i : Nat)
    (h : findIndexNonEmergency l = some i) :
    (∀ x ∈ l.take i, x.isEmergency = true) ∧
    (∃ e, l.get? i = some e ∧ e.isEmergency = false) ∧ i < l.length := by
  induction l generalizing i with
  | nil => exact Option.noConfusion h
  | cons a rest ih =>
      unfold findIndexNonEmergency at h
      by_cases ha : a.isEmergency = false
      · rw [if_pos ha] at h
        have hi : i = 0 := by
          injection h.symm
        subst hi
        exact ⟨by simp, ⟨a, rfl, ha⟩, by simp⟩
      · rw [if_neg ha] at h
        rcases hrec : findIndexNonEmergency rest with _ | j
        · rw [hrec] at h
          exact Option.noConfusion h
        · rw [hrec] at h
          have hi : i = j + 1 := by
            have h' : some (Nat.succ j) = some i := h
            injection h'.symm
          subst hi
          obtain ⟨h1, h2, h3⟩ := ih j hrec
          refine ⟨?_, by simpa using h2, by simpa using h3⟩
          intro x hx
          simp only [List.take_succ_cons, List.mem_cons] at hx
          rcases hx with hx | hx
          · rw [hx]
            exact Bool.not_eq_false a.isEmergency ▸ Bool.of_not_eq_false ha
          · exact h1 x hx

/-- **C8** — Broadcast-queue hard cap: starting from a queue within the
100-entry cap, `queueBroadcast` leaves at most 100 entries; when the push
takes the queue past the cap it removes exactly one entry — the earliest
(oldest-queued) non-emergency entry, falling back to the overall oldest
(the head) only when every queued entry is emergency. -/
theorem queueBroadcast_cap_spec (q : List QueuedBroadcast) (b : QueuedBroadcast)
    (hcap : q.length ≤ MAX_QUEUE_SIZE) :
    (queueBroadcast q b).length ≤ MAX_QUEUE_SIZE ∧
    (MAX_QUEUE_SIZE < (q ++ [b]).length →
      ((∃ x ∈ q ++ [b], x.isEmergency = false) →
        ∃ i, (∀ x ∈ (q ++ [b]).take i, x.isEmergency = true) ∧
          (∃ e, (q ++ [b]).get? i = some e ∧ e.isEmergency = false) ∧
          queueBroadcast q b = (q ++ [b]).eraseIdx i ∧
          (queueBroadcast q b).length + 1 = (q ++ [b]).length) ∧
      ((∀ x ∈ q ++ [b], x.isEmergency = true) →
        queueBroadcast q b = (q ++ [b]).drop 1 ∧
        (queueBroadcast q b).length + 1 = (q ++ [b]).length)) := by
  by_cases hover : MAX_QUEUE_SIZE < (q ++ [b]).length
  · have hlen : (q ++ [b]).length = MAX_QUEUE_SIZE + 1 := by
      simp only [List.length_append, List.length_singleton] at hover ⊢
      omega
    rcases hfi : findIndexNonEmergency (q ++ [b]) with _ | i
    · have hq : queueBroadcast q b = (q ++ [b]).drop 1 := by
        unfold queueBroadcast
        rw [if_pos hover, hfi]
      have hdroplen : ((q ++ [b]).drop 1).length + 1 = (q ++ [b]).length := by
        rw [List.length_drop]
        omega
      refine ⟨by rw [hq]; omega, fun _ => ⟨?_, fun _ => ⟨hq, by rw [hq]; exact hdroplen⟩⟩⟩
      intro hex
      obtain ⟨x, hx, hxe⟩ := hex
      have := findIndexNonEmergency_none (q ++ [b]) hfi x hx
      rw [this] at hxe
      exact Bool.noConfusion hxe
    · obtain ⟨h1, h2, h3⟩ := findIndexNonEmergency_some (q ++ [b]) i hfi
      have hq : queueBroadcast q b = (q ++ [b]).eraseIdx i := by
        unfold queueBroadcast
        rw [if_pos hover, hfi]
      have herlen : ((q ++ [b]).eraseIdx i).length + 1 = (q ++ [b]).length := by
        rw [List.length_eraseIdx, if_pos h3]
        omega
      refine ⟨by rw [hq]; omega, fun _ => ⟨fun _ => ⟨i, h1, h2, hq, ?_⟩, ?_⟩⟩
      · rw [hq]
        exact herlen
      · intro hall
        obtain ⟨e, he, hee⟩ := h2
        have hmem : e ∈ q ++ [b] := by
          exact List.get?_mem he
        rw [hall e hmem] at hee
        exact Bool.noConfusion hee
  · have hq : queueBroadcast q b = q ++ [b] := by
      unfold queueBroadcast
      rw [if_neg hover]
    refine ⟨by rw [hq]; omega, fun hc => absurd hc hover⟩

theorem queueBroadcast_cap_spec_witness :
    (queueBroadcast [] demoFresh).length ≤ MAX_QUEUE_SIZE :=
  (queueBroadcast_cap_spec [] demoFresh (by decide)).1

/-! ## Failing-input evaluations -/

def idStr (n : Nat) : String := "n" ++ Nat.repr n

/-- 101 link-layer discovery events from distinct peers, applied to a
fresh node (deviceId "me"), in order. -/
def discoverMany (s : MeshState) (ids : List String) : MeshState :=
  ids.foldl (fun st i => updatePhysicalNeighbor 0 st i none) s

set_option maxRecDepth 40000 in
/-- **C3** failing input — `updatePhysicalNeighbor` has no eviction
check: after 101 physical-discovery events from distinct peers, the
neighbor table holds 101 entries, exceeding
`MESH_CONFIG.NEIGHBOR_CACHE_MAX = 100`; no entry was evicted. -/
theorem neighbor_cache_overflow_eval :
    JsMap.size ((discoverMany demoState ((List.range 101).map idStr)).neighborCache) =
      101 ∧
    NEIGHBOR_CACHE_MAX < 101 := by
  constructor
  · decide
  · decide

/-- The seen-message cache after 1001 distinct message ids were inserted
at time 0 (each insertion in `onPacketReceived`/`sendPacket` records
`timestamp: Date.now()` and `forwarded: false`). -/
def seenFlood : JsMap SeenMessageEntry :=
  (List.range 1001).map (fun n => (Nat.repr n, SeenMessageEntry.mk (Nat.repr n) 0 false))

/-- **C4** failing input — `cleanSeenMessages` only expires entries older
than `SEEN_MESSAGE_TTL`; it never reads `MESH_CONFIG.SEEN_MESSAGES_MAX`.
Sweeping a cache holding 1001 fresh entries removes nothing, so 1001 >
1000 entries remain. -/
theorem seen_cache_cap_unenforced_eval :
    JsMap.size (cleanSeenMessages 0 seenFlood) = 1001 ∧
    SEEN_MESSAGES_MAX < 1001 := by
  constructor
  · have hall : cleanSeenMessages 0 seenFlood = seenFlood := by
      apply List.filter_eq_self.mpr
      intro a ha
      rcases List.mem_map.mp ha with ⟨n, _, rfl⟩
      rfl
    rw [hall]
    simp [seenFlood, JsMap.size]
  · decide

def demoEligible : QueuedBroadcast :=
  { id := "a", message := "hello", isEmergency := false, timestamp := 0,
    attempts := 0, maxAttempts := 5, nextAttemptAt := 0 }

def demoInBackoff : QueuedBroadcast :=
  { id := "b", message := "later", isEmergency := false, timestamp := 1,
    attempts := 1, maxAttempts := 5, nextAttemptAt := 999999 }

/-- **C5** failing input — `processQueue` computes `eligible` (the
entries with `nextAttemptAt <= now`) only to decide whether to run at
all, then iterates over a sorted copy of the *whole* queue.  At `now =
10` with one active neighbor, `demoInBackoff` (whose backoff timer ends
at 999999) is nevertheless passed to `sendBroadcastMessage` — and, the
send succeeding, leaves the queue — because `demoEligible` made the run
eligible. -/
theorem backoff_filter_ignored_eval :
    10 < demoInBackoff.nextAttemptAt ∧
    demoInBackoff ∈ (processQueue 10 1 (fun _ => true) [demoEligible, demoInBackoff]).2 ∧
    demoInBackoff ∉ (processQueue 10 1 (fun _ => true) [demoEligible, demoInBackoff]).1 := by
  refine ⟨by decide, ?_, ?_⟩
  · decide
  · decide

end Mesh
